import Mathlib

/-!
Verification development for the polymarket-copytrade rebalancing core.

The Rust sources (src/state.rs, src/engine.rs, src/executor.rs,
src/bin/copytrade.rs) are shallowly embedded below.  Monetary and share
quantities, which the Rust code stores as f64, are embedded as exact
rationals; the Rust HashMap of holdings is embedded as an association
list keyed by asset token id, and the price HashMaps likewise.  All
definitions follow the Rust line by line; logging calls carry no
semantics and are omitted.
-/

/-- Side of an order (types.rs OrderSide). -/
inductive OrderSide where
  | Buy
  | Sell
deriving DecidableEq, Repr

/-- Identifier data for a tradable outcome (types.rs MarketPosition). -/
structure MarketPosition where
  conditionId : String
  asset : String
  title : String
  outcome : String
  outcomeIndex : Int
  eventSlug : String
deriving DecidableEq, Repr

/-- An owned position (types.rs HeldPosition). -/
structure HeldPosition where
  asset : String
  title : String
  outcome : String
  shares : ℚ
  totalCost : ℚ
  avgCost : ℚ
deriving DecidableEq, Repr

/-- An order resting on the book (types.rs RestingOrder). -/
structure RestingOrder where
  orderId : String
  asset : String
  title : String
  outcome : String
  side : OrderSide
  shares : ℚ
  price : ℚ
  costUsd : ℚ
deriving DecidableEq, Repr

/-- A proposed diff order (types.rs SimulatedOrder). -/
structure SimulatedOrder where
  market : MarketPosition
  side : OrderSide
  shares : ℚ
  price : ℚ
  costUsd : ℚ
deriving DecidableEq, Repr

/-- Outcome classification of one submitted order (types.rs ExecutionStatus). -/
inductive ExecutionStatus where
  | Filled
  | PartialFill
  | Resting
  | Failed
  | Skipped
deriving DecidableEq, Repr

/-- Result of submitting one SimulatedOrder (types.rs ExecutionResult). -/
structure ExecutionResult where
  orderIndex : Nat
  status : ExecutionStatus
  orderId : String
  filledShares : ℚ
  filledCostUsd : ℚ
  errorMsg : Option String
deriving DecidableEq, Repr

/-- Holdings map: HashMap of state.rs embedded as an association list. -/
abbrev Holdings := List (String × HeldPosition)

/-- Price map: HashMap of asset token id to price. -/
abbrev PriceMap := List (String × ℚ)

/-- First binding for a key in an association list of holdings. -/
def hLookup (m : Holdings) (key : String) : Option HeldPosition :=
  match m with
  | [] => none
  | (k, v) :: rest => if k = key then some v else hLookup rest key

/-- Remove the binding for a key (HashMap.remove). -/
def hRemove (m : Holdings) (key : String) : Holdings :=
  match m with
  | [] => []
  | (k, v) :: rest => if k = key then rest else (k, v) :: hRemove rest key

/-- HashMap entry-or-insert followed by an in-place mutation: update the
existing binding with f, or append f applied to the default. -/
def hUpsert (m : Holdings) (key : String) (dflt : HeldPosition)
    (f : HeldPosition → HeldPosition) : Holdings :=
  match m with
  | [] => [(key, f dflt)]
  | (k, v) :: rest =>
      if k = key then (k, f v) :: rest else (k, v) :: hUpsert rest key dflt f

/-- Replace the value bound to a key, leaving the list unchanged if absent. -/
def hSet (m : Holdings) (key : String) (v2 : HeldPosition) : Holdings :=
  match m with
  | [] => []
  | (k, v) :: rest => if k = key then (k, v2) :: rest else (k, v) :: hSet rest key v2

/-- First binding for a key in a price map. -/
def pmLookup (m : PriceMap) (key : String) : Option ℚ :=
  match m with
  | [] => none
  | (k, v) :: rest => if k = key then some v else pmLookup rest key

/-- Insert or overwrite a price binding (HashMap.insert). -/
def pmInsert (m : PriceMap) (key : String) (v2 : ℚ) : PriceMap :=
  match m with
  | [] => [(key, v2)]
  | (k, v) :: rest => if k = key then (k, v2) :: rest else (k, v) :: pmInsert rest key v2

/-- The trading state aggregate (state.rs TradingState). -/
structure TradingState where
  holdings : Holdings
  restingOrders : List RestingOrder
  initialBudget : ℚ
  budgetRemaining : ℚ
  totalSpent : ℚ
  totalSellProceeds : ℚ
  realizedPnl : ℚ
  totalEvents : Nat
  totalOrders : Nat
  totalBuyOrders : Nat
  totalSellOrders : Nat
deriving DecidableEq, Repr

/-- TradingState::new. -/
def TradingState.new (budget : ℚ) : TradingState where
  holdings := []
  restingOrders := []
  initialBudget := budget
  budgetRemaining := budget
  totalSpent := 0
  totalSellProceeds := 0
  realizedPnl := 0
  totalEvents := 0
  totalOrders := 0
  totalBuyOrders := 0
  totalSellOrders := 0

/-- TradingState::effective_capital: cash plus holdings value plus resting
buy value, with prices falling back to avg cost resp. the resting price. -/
def TradingState.effectiveCapital (s : TradingState) (prices : PriceMap) : ℚ :=
  let holdingsValue :=
    (s.holdings.map (fun e => e.2.shares * ((pmLookup prices e.1).getD e.2.avgCost))).sum
  let restingBuyValue :=
    ((s.restingOrders.filter (fun r => decide (r.side = OrderSide.Buy))).map
      (fun r => r.shares * ((pmLookup prices r.asset).getD r.price))).sum
  s.budgetRemaining + holdingsValue + restingBuyValue

/-- TradingState::effective_held_shares. -/
def TradingState.effectiveHeldShares (s : TradingState) (asset : String) : ℚ :=
  let held := ((hLookup s.holdings asset).map HeldPosition.shares).getD 0
  let restingBuy :=
    ((s.restingOrders.filter
        (fun r => decide (r.asset = asset) && decide (r.side = OrderSide.Buy))).map
      RestingOrder.shares).sum
  let restingSell :=
    ((s.restingOrders.filter
        (fun r => decide (r.asset = asset) && decide (r.side = OrderSide.Sell))).map
      RestingOrder.shares).sum
  held + restingBuy - restingSell

/-- TradingState::add_resting_order. -/
def TradingState.addRestingOrder (s : TradingState) (order : RestingOrder) : TradingState :=
  let s2 :=
    if order.side = OrderSide.Buy then
      { s with budgetRemaining := s.budgetRemaining - order.costUsd }
    else s
  { s2 with restingOrders := s2.restingOrders ++ [order] }

/-- Find the first element satisfying p and return it with the list with
that element removed (Vec::position followed by Vec::remove). -/
def findRemove {α : Type} (p : α → Bool) : List α → Option (α × List α)
  | [] => none
  | x :: xs =>
      if p x then some (x, xs)
      else
        match findRemove p xs with
        | some (y, ys) => some (y, x :: ys)
        | none => none

/-- TradingState::resolve_resting_fill. -/
def TradingState.resolveRestingFill (s : TradingState) (orderId : String)
    (filledShares fillPrice : ℚ) : TradingState :=
  match findRemove (fun r => decide (r.orderId = orderId)) s.restingOrders with
  | none => s
  | some (resting, rest) =>
      let filledCost := filledShares * fillPrice
      let s1 := { s with restingOrders := rest }
      let s2 :=
        match resting.side with
        | OrderSide.Buy =>
            let s1 := { s1 with
              budgetRemaining := s1.budgetRemaining + (resting.costUsd - filledCost),
              totalSpent := s1.totalSpent + filledCost,
              totalBuyOrders := s1.totalBuyOrders + 1 }
            let dflt : HeldPosition :=
              { asset := resting.asset, title := resting.title, outcome := resting.outcome,
                shares := 0, totalCost := 0, avgCost := 0 }
            { s1 with holdings := hUpsert s1.holdings resting.asset dflt (fun h =>
                let shares := h.shares + filledShares
                let totalCost := h.totalCost + filledCost
                { h with shares := shares, totalCost := totalCost,
                         avgCost := if 0 < shares then totalCost / shares else 0 }) }
        | OrderSide.Sell =>
            let s1 := { s1 with
              budgetRemaining := s1.budgetRemaining + filledCost,
              totalSellProceeds := s1.totalSellProceeds + filledCost,
              totalSellOrders := s1.totalSellOrders + 1 }
            match hLookup s1.holdings resting.asset with
            | none => s1
            | some held =>
                let pnl := (fillPrice - held.avgCost) * filledShares
                let shares2 := held.shares - filledShares
                let totalCost2 := held.totalCost - held.avgCost * filledShares
                { s1 with
                  realizedPnl := s1.realizedPnl + pnl,
                  holdings :=
                    if shares2 ≤ 0 then hRemove s1.holdings resting.asset
                    else hSet s1.holdings resting.asset
                      { held with shares := shares2, totalCost := totalCost2 } }
      { s2 with totalOrders := s2.totalOrders + 1 }

/-- TradingState::resolve_resting_cancel. -/
def TradingState.resolveRestingCancel (s : TradingState) (orderId : String) : TradingState :=
  match findRemove (fun r => decide (r.orderId = orderId)) s.restingOrders with
  | none => s
  | some (resting, rest) =>
      let s1 := { s with restingOrders := rest }
      if resting.side = OrderSide.Buy then
        { s1 with budgetRemaining := s1.budgetRemaining + resting.costUsd }
      else s1

/-- One iteration of the loop in TradingState::apply_orders. -/
def TradingState.applyOrder (s : TradingState) (o : SimulatedOrder) : TradingState :=
  let s2 :=
    match o.side with
    | OrderSide.Buy =>
        let s1 := { s with
          budgetRemaining := s.budgetRemaining - o.costUsd,
          totalSpent := s.totalSpent + o.costUsd,
          totalBuyOrders := s.totalBuyOrders + 1 }
        let dflt : HeldPosition :=
          { asset := o.market.asset, title := o.market.title, outcome := o.market.outcome,
            shares := 0, totalCost := 0, avgCost := 0 }
        { s1 with holdings := hUpsert s1.holdings o.market.asset dflt (fun h =>
            let shares := h.shares + o.shares
            let totalCost := h.totalCost + o.costUsd
            { h with shares := shares, totalCost := totalCost,
                     avgCost := if 0 < shares then totalCost / shares else 0 }) }
    | OrderSide.Sell =>
        let s1 := { s with
          budgetRemaining := s.budgetRemaining + o.costUsd,
          totalSellProceeds := s.totalSellProceeds + o.costUsd,
          totalSellOrders := s.totalSellOrders + 1 }
        match hLookup s1.holdings o.market.asset with
        | none => s1
        | some held =>
            let pnl := (o.price - held.avgCost) * o.shares
            let shares2 := held.shares - o.shares
            let totalCost2 := held.totalCost - held.avgCost * o.shares
            { s1 with
              realizedPnl := s1.realizedPnl + pnl,
              holdings :=
                if shares2 ≤ 0 then hRemove s1.holdings o.market.asset
                else hSet s1.holdings o.market.asset
                  { held with shares := shares2, totalCost := totalCost2 } }
  { s2 with totalOrders := s2.totalOrders + 1 }

/-- TradingState::apply_orders. -/
def TradingState.applyOrders (s : TradingState) (orders : List SimulatedOrder) : TradingState :=
  orders.foldl TradingState.applyOrder s

/-- The synthesized filled portion of one result, in
TradingState::apply_execution_results: the original order at the result
index, resized to the filled shares at effective price filledCost divided
by filledShares. -/
def synthFilledOrder (orders : List SimulatedOrder) (r : ExecutionResult) :
    Option SimulatedOrder :=
  (orders.get? r.orderIndex).map (fun original =>
    { market := original.market
      side := original.side
      shares := r.filledShares
      price := if 0 < r.filledShares then r.filledCostUsd / r.filledShares else original.price
      costUsd := r.filledCostUsd })

/-- The filled-portion order list of TradingState::apply_execution_results. -/
def synthFilledOrders (orders : List SimulatedOrder) (results : List ExecutionResult) :
    List SimulatedOrder :=
  (results.filter (fun r =>
      decide (r.status = ExecutionStatus.Filled) ||
      decide (r.status = ExecutionStatus.PartialFill))).filterMap
    (synthFilledOrder orders)

/-- One iteration of the resting-order tracking loop in
TradingState::apply_execution_results. -/
def trackRestingStep (orders : List SimulatedOrder) (s : TradingState)
    (result : ExecutionResult) : TradingState :=
  match orders.get? result.orderIndex with
  | none => s
  | some original =>
      match result.status with
      | ExecutionStatus.Resting =>
          s.addRestingOrder
            { orderId := result.orderId
              asset := original.market.asset
              title := original.market.title
              outcome := original.market.outcome
              side := original.side
              shares := original.shares
              price := original.price
              costUsd := original.costUsd }
      | ExecutionStatus.PartialFill =>
          let remainingShares := original.shares - result.filledShares
          if 0 < remainingShares ∧ result.orderId ≠ "" then
            s.addRestingOrder
              { orderId := result.orderId
                asset := original.market.asset
                title := original.market.title
                outcome := original.market.outcome
                side := original.side
                shares := remainingShares
                price := original.price
                costUsd := remainingShares * original.price }
          else s
      | _ => s

/-- TradingState::apply_execution_results. -/
def TradingState.applyExecutionResults (s : TradingState) (orders : List SimulatedOrder)
    (results : List ExecutionResult) : TradingState :=
  let s1 := s.applyOrders (synthFilledOrders orders results)
  results.foldl (trackRestingStep orders) s1

/-- A desired position (types.rs TargetAllocation). -/
structure TargetAllocation where
  market : MarketPosition
  traderWeight : ℚ
  targetValueUsd : ℚ
  targetShares : ℚ
  curPrice : ℚ
deriving DecidableEq, Repr

/-- engine.rs MIN_ORDER_USD: minimum notional for an opening order. -/
def MIN_ORDER_USD : ℚ := 1

/-- The buy candidate one target contributes in the first loop of
engine.rs compute_orders: emitted when the diff against effective held
shares is positive and the cost clears the minimum notional. -/
def buyForTarget (state : TradingState) (t : TargetAllocation) : Option SimulatedOrder :=
  let held := state.effectiveHeldShares t.market.asset
  let diff := t.targetShares - held
  if 0 < diff then
    let cost := diff * t.curPrice
    if MIN_ORDER_USD ≤ cost then
      some { market := t.market, side := OrderSide.Buy, shares := diff,
             price := t.curPrice, costUsd := cost }
    else none
  else none

/-- The sell candidate one target contributes in the first loop of
engine.rs compute_orders: emitted when the diff is negative, with no
minimum notional. -/
def sellForTarget (state : TradingState) (t : TargetAllocation) : Option SimulatedOrder :=
  let held := state.effectiveHeldShares t.market.asset
  let diff := t.targetShares - held
  if 0 < diff then none
  else if diff < 0 then
    let sellShares := -diff
    some { market := t.market, side := OrderSide.Sell, shares := sellShares,
           price := t.curPrice, costUsd := sellShares * t.curPrice }
  else none

/-- The exit sell one holdings entry contributes in the second loop of
engine.rs compute_orders: for a held asset absent from the target set,
with positive held and effective shares and an exit price in the price
map, sell the effective shares at that price; skip otherwise. -/
def exitSellFor (state : TradingState) (targetAssets : List String) (priceMap : PriceMap)
    (entry : String × HeldPosition) : Option SimulatedOrder :=
  if targetAssets.contains entry.1 then none
  else if 0 < entry.2.shares then
    let eff := state.effectiveHeldShares entry.1
    if eff ≤ 0 then none
    else
      match pmLookup priceMap entry.1 with
      | none => none
      | some price =>
          some { market := { conditionId := "", asset := entry.1, title := entry.2.title,
                             outcome := entry.2.outcome, outcomeIndex := 0, eventSlug := "" },
                 side := OrderSide.Sell, shares := eff, price := price,
                 costUsd := eff * price }
  else none

/-- The buy-budgeting loop at the end of engine.rs compute_orders:
running available budget, break below the minimum notional, full buys
subtract their cost, an unaffordable buy is downsized to the affordable
shares and emitted when its cost still clears the minimum notional. -/
def budgetedBuys (available : ℚ) : List SimulatedOrder → List SimulatedOrder
  | [] => []
  | buy :: rest =>
      if available < MIN_ORDER_USD then []
      else if buy.costUsd ≤ available then
        buy :: budgetedBuys (available - buy.costUsd) rest
      else
        let affordableShares := available / buy.price
        let cost := affordableShares * buy.price
        if MIN_ORDER_USD ≤ cost then
          { buy with shares := affordableShares, costUsd := cost } ::
            budgetedBuys (available - cost) rest
        else budgetedBuys available rest

/-- Sum of the costUsd fields over a list of orders. -/
def sumCost (orders : List SimulatedOrder) : ℚ :=
  (orders.map SimulatedOrder.costUsd).sum

/-- The sell orders the first and second loops of compute_orders push,
in push order: target sells in target order, then exit sells in
holdings order. -/
def engineSells (state : TradingState) (targets : List TargetAllocation)
    (priceMap : PriceMap) : List SimulatedOrder :=
  targets.filterMap (sellForTarget state) ++
    state.holdings.filterMap
      (exitSellFor state (targets.map (fun t => t.market.asset)) priceMap)

/-- The buy candidates the first loop of compute_orders pushes. -/
def engineBuys (state : TradingState) (targets : List TargetAllocation) :
    List SimulatedOrder :=
  targets.filterMap (buyForTarget state)

/-- engine.rs compute_orders: target sells then exit sells, followed by
the buys that fit the running available budget (which starts at the
remaining budget and is credited with every sell's proceeds).  The
trader-id parameter of the Rust function only feeds log lines and is
dropped. -/
def computeOrders (targets : List TargetAllocation) (state : TradingState)
    (budgetRemaining : ℚ) (priceMap : PriceMap) : List SimulatedOrder :=
  let sells := engineSells state targets priceMap
  let buys := engineBuys state targets
  sells ++ budgetedBuys (budgetRemaining + sumCost sells) buys

/-- A position of the target trader as fetched from the market-data
source (the SDK Position type, restricted to the fields engine.rs and
copytrade.rs read). -/
structure Position where
  conditionId : String
  asset : String
  title : String
  outcome : String
  outcomeIndex : Int
  eventSlug : String
  currentValue : ℚ
  curPrice : ℚ
deriving DecidableEq, Repr

/-- engine.rs extract_market. -/
def extractMarket (p : Position) : MarketPosition :=
  { conditionId := p.conditionId, asset := p.asset, title := p.title,
    outcome := p.outcome, outcomeIndex := p.outcomeIndex, eventSlug := p.eventSlug }

/-- engine.rs compute_weights. -/
def computeWeights (positions : List Position) : List (MarketPosition × ℚ × ℚ) :=
  let totalValue := (positions.map Position.currentValue).sum
  if totalValue ≤ 0 then []
  else positions.map (fun p => (extractMarket p, p.currentValue / totalValue, p.curPrice))

/-- engine.rs compute_target_state. -/
def computeTargetState (weights : List (MarketPosition × ℚ × ℚ))
    (budget copyPct maxTradePct : ℚ) : List TargetAllocation :=
  let maxPerMarket := maxTradePct * budget
  weights.map (fun w =>
    match w with
    | (market, weight, curPrice) =>
      let rawTarget := weight * budget * copyPct
      let targetUsd := min rawTarget maxPerMarket
      { market := market
        traderWeight := weight
        targetValueUsd := targetUsd
        targetShares := if 0 < curPrice then targetUsd / curPrice else 0
        curPrice := curPrice })

/-- copytrade.rs build_price_map: collect asset to current price. -/
def buildPriceMap (positions : List Position) : PriceMap :=
  positions.foldl (fun m p => pmInsert m p.asset p.curPrice) []

/-- api.rs build_exit_price_map: start from the active prices and, for
each needed asset that the map is missing, insert the price the oracle
returns for it (assets the oracle cannot price stay absent). -/
def buildExitPriceMap (oracle : String → Option ℚ) (active : PriceMap)
    (needed : List String) : PriceMap :=
  needed.foldl (fun m a =>
    if (pmLookup m a).isSome then m
    else
      match oracle a with
      | some p => pmInsert m a p
      | none => m) active

/-- The dry-run rebalancing portion of one poll cycle in
copytrade.rs poll_cycle: price map and weights from the fetched
positions, running budget from effective capital, targets, exit price
map through the oracle, orders, and finally apply_orders (dry-run arm).
Returns the computed orders together with the state after applying. -/
def rebalanceDryRun (state : TradingState) (positions : List Position)
    (oracle : String → Option ℚ) (copyPct maxTradePct : ℚ) :
    List SimulatedOrder × TradingState :=
  let activePrices := buildPriceMap positions
  let weights := computeWeights positions
  let runningBudget := state.effectiveCapital activePrices
  let targets := computeTargetState weights runningBudget copyPct maxTradePct
  let heldAssets := state.holdings.map Prod.fst
  let priceMap := buildExitPriceMap oracle activePrices heldAssets
  let orders := computeOrders targets state state.budgetRemaining priceMap
  (orders, state.applyOrders orders)

/-- CLOB order status values the executor distinguishes; the SDK enum
has further states, all handled by the same wildcard arm as Delayed. -/
inductive OrderStatusType where
  | Matched
  | Live
  | Canceled
  | Unmatched
  | Delayed
deriving DecidableEq, Repr

/-- Reply of OrderBroker.orderStatus (executor.rs status query). -/
structure OrderStatusInfo where
  status : OrderStatusType
  sizeMatched : ℚ
  originalSize : ℚ
  price : ℚ
deriving DecidableEq, Repr

/-- Printable label of a status, standing in for the Display impl the
Rust error message interpolates. -/
def statusLabel : OrderStatusType → String
  | OrderStatusType.Matched => "MATCHED"
  | OrderStatusType.Live => "LIVE"
  | OrderStatusType.Canceled => "CANCELED"
  | OrderStatusType.Unmatched => "UNMATCHED"
  | OrderStatusType.Delayed => "DELAYED"

/-- The classification at the end of executor.rs execute_single_order:
after a successful post whose response was not already Matched, the
deferred status query either returns an OrderStatusInfo or errors, and
the ExecutionResult is built from it.  sharesTrunc is the intended share
count already truncated to two decimals. -/
def classifyStatusCheck (index : Nat) (order : SimulatedOrder) (sharesTrunc : ℚ)
    (orderId : String) (resp : Except String OrderStatusInfo) : ExecutionResult :=
  match resp with
  | Except.ok st =>
      match st.status with
      | OrderStatusType.Matched =>
          { orderIndex := index, status := ExecutionStatus.Filled, orderId := orderId,
            filledShares := st.sizeMatched, filledCostUsd := st.sizeMatched * st.price,
            errorMsg := none }
      | OrderStatusType.Live =>
          if 0 < st.sizeMatched then
            { orderIndex := index, status := ExecutionStatus.PartialFill, orderId := orderId,
              filledShares := st.sizeMatched, filledCostUsd := st.sizeMatched * st.price,
              errorMsg := none }
          else
            { orderIndex := index, status := ExecutionStatus.Resting, orderId := orderId,
              filledShares := 0, filledCostUsd := 0, errorMsg := none }
      | OrderStatusType.Canceled =>
          if 0 < st.sizeMatched then
            { orderIndex := index, status := ExecutionStatus.PartialFill, orderId := orderId,
              filledShares := st.sizeMatched, filledCostUsd := st.sizeMatched * st.price,
              errorMsg := none }
          else
            { orderIndex := index, status := ExecutionStatus.Failed, orderId := orderId,
              filledShares := 0, filledCostUsd := 0,
              errorMsg := some ("order " ++ statusLabel st.status) }
      | OrderStatusType.Unmatched =>
          if 0 < st.sizeMatched then
            { orderIndex := index, status := ExecutionStatus.PartialFill, orderId := orderId,
              filledShares := st.sizeMatched, filledCostUsd := st.sizeMatched * st.price,
              errorMsg := none }
          else
            { orderIndex := index, status := ExecutionStatus.Failed, orderId := orderId,
              filledShares := 0, filledCostUsd := 0,
              errorMsg := some ("order " ++ statusLabel st.status) }
      | OrderStatusType.Delayed =>
          { orderIndex := index, status := ExecutionStatus.Filled, orderId := orderId,
            filledShares := sharesTrunc, filledCostUsd := sharesTrunc * order.price,
            errorMsg := none }
  | Except.error e =>
      { orderIndex := index, status := ExecutionStatus.Filled, orderId := orderId,
        filledShares := sharesTrunc, filledCostUsd := sharesTrunc * order.price,
        errorMsg := some ("status check failed: " ++ e) }

/-- A public TradingState mutation with its arguments. -/
inductive Op where
  | addResting (r : RestingOrder)
  | resolveFill (orderId : String) (filledShares fillPrice : ℚ)
  | resolveCancel (orderId : String)
  | applyOrds (orders : List SimulatedOrder)
  | applyExec (orders : List SimulatedOrder) (results : List ExecutionResult)
deriving Repr

/-- Run one public operation on the state. -/
def applyOp (s : TradingState) : Op → TradingState
  | Op.addResting r => s.addRestingOrder r
  | Op.resolveFill orderId filledShares fillPrice =>
      s.resolveRestingFill orderId filledShares fillPrice
  | Op.resolveCancel orderId => s.resolveRestingCancel orderId
  | Op.applyOrds orders => s.applyOrders orders
  | Op.applyExec orders results => s.applyExecutionResults orders results

/-- Run a sequence of public operations from a fresh state. -/
def runOps (budget : ℚ) (ops : List Op) : TradingState :=
  ops.foldl applyOp (TradingState.new budget)

/-- Reserved cost of the resting buy orders. -/
def restingBuyCost (rs : List RestingOrder) : ℚ :=
  ((rs.filter (fun r => decide (r.side = OrderSide.Buy))).map RestingOrder.costUsd).sum

/-- The accounting identity (spec invariant I2), exact over rationals. -/
def accounting (s : TradingState) : Prop :=
  s.budgetRemaining + s.totalSpent - s.totalSellProceeds +
    restingBuyCost s.restingOrders = s.initialBudget

/-- A Buy order for zero shares, as apply_orders receives it when an
execution result reports status Filled with zero filled shares. -/
def zeroShareBuy : SimulatedOrder :=
  { market := { conditionId := "", asset := "A", title := "", outcome := "",
                outcomeIndex := 0, eventSlug := "" },
    side := OrderSide.Buy, shares := 0, price := 1/2, costUsd := 0 }

/-- One Filled ExecutionResult per order, indexed from i, each reporting
the order's own share count and cost (spec round-trip R4). -/
def mkFilledResultsFrom : Nat → List SimulatedOrder → List ExecutionResult
  | _, [] => []
  | i, o :: rest =>
      { orderIndex := i, status := ExecutionStatus.Filled, orderId := "",
        filledShares := o.shares, filledCostUsd := o.costUsd, errorMsg := none } ::
        mkFilledResultsFrom (i + 1) rest

/-- The all-Filled results list for an orders list. -/
def mkFilledResults (orders : List SimulatedOrder) : List ExecutionResult :=
  mkFilledResultsFrom 0 orders

/-- Witness state for the amended C6 equality. -/
def c6wState : TradingState := TradingState.new 50

/-- Witness order for the amended C6 equality, with costUsd = shares * price. -/
def c6wOrder : SimulatedOrder :=
  { market := { conditionId := "", asset := "W", title := "", outcome := "",
                outcomeIndex := 0, eventSlug := "" },
    side := OrderSide.Buy, shares := 2, price := 1/2, costUsd := 1 }

/-- Starting state of the C6 counterexample: ten shares of asset A held
at average cost 1. -/
def c6cState : TradingState :=
  { holdings := [("A", { asset := "A", title := "", outcome := "", shares := 10,
                         totalCost := 10, avgCost := 1 })]
    restingOrders := []
    initialBudget := 100
    budgetRemaining := 100
    totalSpent := 0
    totalSellProceeds := 0
    realizedPnl := 0
    totalEvents := 0
    totalOrders := 0
    totalBuyOrders := 0
    totalSellOrders := 0 }

/-- A sell order whose stated costUsd (10) is not shares * price (6). -/
def c6cOrder : SimulatedOrder :=
  { market := { conditionId := "", asset := "A", title := "", outcome := "",
                outcomeIndex := 0, eventSlug := "" },
    side := OrderSide.Sell, shares := 2, price := 3, costUsd := 10 }

/-- Shorthand market record with only the asset id set. -/
def mkMarket (a : String) : MarketPosition :=
  { conditionId := "", asset := a, title := "", outcome := "",
    outcomeIndex := 0, eventSlug := "" }

/-- A state holding five shares of asset A at avg cost 0.4, with no cash. -/
def c2negState : TradingState :=
  { holdings := [("A", { asset := "A", title := "", outcome := "", shares := 5,
                         totalCost := 2, avgCost := 2/5 })]
    restingOrders := []
    initialBudget := 0
    budgetRemaining := 0
    totalSpent := 0
    totalSellProceeds := 0
    realizedPnl := 0
    totalEvents := 0
    totalOrders := 0
    totalBuyOrders := 0
    totalSellOrders := 0 }

/-- A target with a negative current price and zero target shares. -/
def c2negTarget : TargetAllocation :=
  { market := mkMarket "A", traderWeight := 1, targetValueUsd := 0,
    targetShares := 0, curPrice := -1 }

/-- A target whose buy would have notional 0.99 dollars. -/
def c7target99 : TargetAllocation :=
  { market := mkMarket "A", traderWeight := 1, targetValueUsd := 99/100,
    targetShares := 99/50, curPrice := 1/2 }

/-- A target whose buy has notional exactly 1 dollar. -/
def c7target100 : TargetAllocation :=
  { market := mkMarket "A", traderWeight := 1, targetValueUsd := 1,
    targetShares := 2, curPrice := 1/2 }

/-- The buy order the 1-dollar target produces. -/
def c7buy100 : SimulatedOrder :=
  { market := mkMarket "A", side := OrderSide.Buy, shares := 2, price := 1/2,
    costUsd := 1 }

/-- A state holding a dust position in asset B. -/
def c7dustState : TradingState :=
  { holdings := [("B", { asset := "B", title := "", outcome := "", shares := 5,
                         totalCost := 5/2, avgCost := 1/2 })]
    restingOrders := []
    initialBudget := 100
    budgetRemaining := 100
    totalSpent := 5/2
    totalSellProceeds := 0
    realizedPnl := 0
    totalEvents := 0
    totalOrders := 0
    totalBuyOrders := 0
    totalSellOrders := 0 }

/-- The zero-proceeds exit sell of the dust position at price 0. -/
def c7dustSell : SimulatedOrder :=
  { market := mkMarket "B", side := OrderSide.Sell, shares := 5, price := 0,
    costUsd := 0 }

/-- A target wanting two shares of the given asset at price 0.5. -/
def c8target (a : String) : TargetAllocation :=
  { market := mkMarket a, traderWeight := 1/2, targetValueUsd := 1,
    targetShares := 2, curPrice := 1/2 }

/-- The buy order a c8target produces. -/
def c8buy (a : String) : SimulatedOrder :=
  { market := mkMarket a, side := OrderSide.Buy, shares := 2, price := 1/2,
    costUsd := 1 }

/-- A state holding five shares of asset B, used to instantiate C3. -/
def c3wState : TradingState := c7dustState

/-- The exit sell of the five held B shares at price 0.3. -/
def c3wSell : SimulatedOrder :=
  { market := mkMarket "B", side := OrderSide.Sell, shares := 5, price := 3/10,
    costUsd := 3/2 }

/-- Scenario 1's end state: 750 shares of A at 0.40, 156.25 of B at
0.80, budget remaining 575 of the initial 1000. -/
def c5state : TradingState :=
  { holdings := [("A", { asset := "A", title := "", outcome := "", shares := 750,
                         totalCost := 300, avgCost := 2/5 }),
                 ("B", { asset := "B", title := "", outcome := "", shares := 625/4,
                         totalCost := 125, avgCost := 4/5 })]
    restingOrders := []
    initialBudget := 1000
    budgetRemaining := 575
    totalSpent := 425
    totalSellProceeds := 0
    realizedPnl := 0
    totalEvents := 1
    totalOrders := 2
    totalBuyOrders := 2
    totalSellOrders := 0 }

/-- The target trader's fetched positions in scenario 2: only B, at
current value 100 and price 0.80. -/
def c5positions : List Position :=
  [{ conditionId := "cB", asset := "B", title := "B", outcome := "Yes",
     outcomeIndex := 0, eventSlug := "b", currentValue := 100, curPrice := 4/5 }]

/-- The price oracle of scenario 2: the exited asset A quotes at 0.45. -/
def c5oracle : String → Option ℚ := fun a => if a = "A" then some (9/20) else none

/-- The exit sell of scenario 2 as the code computes it. -/
def c5sellA : SimulatedOrder :=
  { market := mkMarket "A", side := OrderSide.Sell, shares := 750, price := 9/20,
    costUsd := 675/2 }

/-- The additional buy of scenario 2 as the code computes it: the target
for B is min(1 * 1000 * 0.5, 0.3 * 1000) = 300 dollars = 375 shares, so
the diff over the held 156.25 shares is a buy of 218.75 shares. -/
def c5buyB : SimulatedOrder :=
  { market := { conditionId := "cB", asset := "B", title := "B", outcome := "Yes",
                outcomeIndex := 0, eventSlug := "b" },
    side := OrderSide.Buy, shares := 875/4, price := 4/5, costUsd := 175 }

/-- The state scenario 2 actually ends in. -/
def c5endState : TradingState :=
  { holdings := [("B", { asset := "B", title := "", outcome := "", shares := 375,
                         totalCost := 300, avgCost := 4/5 })]
    restingOrders := []
    initialBudget := 1000
    budgetRemaining := 1475/2
    totalSpent := 600
    totalSellProceeds := 675/2
    realizedPnl := 75/2
    totalEvents := 1
    totalOrders := 4
    totalBuyOrders := 3
    totalSellOrders := 1 }

/-- A concrete order for instantiating the executor classification. -/
def c9order : SimulatedOrder :=
  { market := mkMarket "A", side := OrderSide.Buy, shares := 10, price := 1/2,
    costUsd := 5 }

theorem restingBuyCost_cons (r : RestingOrder) (rs : List RestingOrder) :
    restingBuyCost (r :: rs) =
      (if r.side = OrderSide.Buy then r.costUsd else 0) + restingBuyCost rs := by
  by_cases hb : r.side = OrderSide.Buy <;>
    simp [restingBuyCost, List.filter_cons, hb]

theorem restingBuyCost_push (rs : List RestingOrder) (r : RestingOrder) :
    restingBuyCost (rs ++ [r]) =
      restingBuyCost rs + (if r.side = OrderSide.Buy then r.costUsd else 0) := by
  by_cases hb : r.side = OrderSide.Buy <;>
    simp [restingBuyCost, List.filter_append, hb]

theorem restingBuyCost_findRemove (p : RestingOrder → Bool) :
    ∀ (rs : List RestingOrder) (r : RestingOrder) (rest : List RestingOrder),
      findRemove p rs = some (r, rest) →
      restingBuyCost rs =
        (if r.side = OrderSide.Buy then r.costUsd else 0) + restingBuyCost rest := by
  intro rs
  induction rs with
  | nil => intro r rest h; simp [findRemove] at h
  | cons x xs ih =>
      intro r rest h
      by_cases hp : p x
      · simp [findRemove, hp] at h
        obtain ⟨h1, h2⟩ := h
        subst h1; subst h2
        exact restingBuyCost_cons ..
      · simp only [findRemove, hp, Bool.false_eq_true, if_false] at h
        cases hfr : findRemove p xs with
        | none => rw [hfr] at h; simp at h
        | some pr =>
            obtain ⟨y, ys⟩ := pr
            rw [hfr] at h
            simp only [Option.some.injEq, Prod.mk.injEq] at h
            obtain ⟨hy, hrest⟩ := h
            subst hy; subst hrest
            rw [restingBuyCost_cons, restingBuyCost_cons, ih _ _ hfr]
            ring

theorem accounting_new (budget : ℚ) : accounting (TradingState.new budget) := by
  simp [accounting, TradingState.new, restingBuyCost]

theorem accounting_addRestingOrder (s : TradingState) (r : RestingOrder)
    (h : accounting s) : accounting (s.addRestingOrder r) := by
  unfold TradingState.addRestingOrder
  simp only [accounting] at h ⊢
  by_cases hb : r.side = OrderSide.Buy
  · simp [hb, restingBuyCost_push] <;> linarith
  · simp [hb, restingBuyCost_push] <;> linarith

theorem accounting_resolveRestingFill (s : TradingState) (oid : String) (fs fp : ℚ)
    (h : accounting s) : accounting (s.resolveRestingFill oid fs fp) := by
  unfold TradingState.resolveRestingFill
  cases hfr : findRemove (fun r => decide (r.orderId = oid)) s.restingOrders with
  | none => exact h
  | some pr =>
      obtain ⟨r, rest⟩ := pr
      have hsum := restingBuyCost_findRemove _ _ _ _ hfr
      obtain ⟨rid, rasset, rtitle, routcome, rside, rshares, rprice, rcost⟩ := r
      cases rside with
      | Buy =>
          simp only [accounting] at h ⊢
          simp at hsum ⊢
          linarith
      | Sell =>
          simp only [accounting] at h ⊢
          simp at hsum
          cases hl : hLookup s.holdings rasset with
          | none => simp [hl]; linarith
          | some held => simp [hl]; linarith

theorem accounting_resolveRestingCancel (s : TradingState) (oid : String)
    (h : accounting s) : accounting (s.resolveRestingCancel oid) := by
  unfold TradingState.resolveRestingCancel
  cases hfr : findRemove (fun r => decide (r.orderId = oid)) s.restingOrders with
  | none => exact h
  | some pr =>
      obtain ⟨r, rest⟩ := pr
      have hsum := restingBuyCost_findRemove _ _ _ _ hfr
      obtain ⟨rid, rasset, rtitle, routcome, rside, rshares, rprice, rcost⟩ := r
      cases rside with
      | Buy =>
          simp only [accounting] at h ⊢
          simp at hsum ⊢ <;> linarith
      | Sell =>
          simp only [accounting] at h ⊢
          simp at hsum ⊢ <;> linarith

theorem accounting_applyOrder (s : TradingState) (o : SimulatedOrder)
    (h : accounting s) : accounting (s.applyOrder o) := by
  unfold TradingState.applyOrder
  obtain ⟨om, oside, osh, opr, oc⟩ := o
  cases oside with
  | Buy =>
      simp only [accounting] at h ⊢
      simp
      linarith
  | Sell =>
      simp only [accounting] at h ⊢
      cases hl : hLookup s.holdings om.asset with
      | none => simp [hl]; linarith
      | some held => simp [hl]; linarith

theorem accounting_applyOrders (orders : List SimulatedOrder) :
    ∀ s : TradingState, accounting s → accounting (s.applyOrders orders) := by
  induction orders with
  | nil => intro s h; exact h
  | cons o rest ih =>
      intro s h
      have h2 := accounting_applyOrder s o h
      simpa [TradingState.applyOrders, List.foldl] using ih _ h2

theorem accounting_trackRestingStep (orders : List SimulatedOrder) (s : TradingState)
    (r : ExecutionResult) (h : accounting s) : accounting (trackRestingStep orders s r) := by
  unfold trackRestingStep
  cases orders.get? r.orderIndex with
  | none => exact h
  | some original =>
      cases r.status with
      | Resting => exact accounting_addRestingOrder _ _ h
      | PartialFill =>
          simp only []
          split
          · exact accounting_addRestingOrder _ _ h
          · exact h
      | Filled => exact h
      | Failed => exact h
      | Skipped => exact h

theorem accounting_applyExecutionResults (s : TradingState) (orders : List SimulatedOrder)
    (results : List ExecutionResult) (h : accounting s) :
    accounting (s.applyExecutionResults orders results) := by
  unfold TradingState.applyExecutionResults
  have h1 : accounting (s.applyOrders (synthFilledOrders orders results)) :=
    accounting_applyOrders _ _ h
  generalize s.applyOrders (synthFilledOrders orders results) = s1 at h1
  induction results generalizing s1 with
  | nil => exact h1
  | cons r rest ih => exact ih _ (accounting_trackRestingStep orders s1 r h1)

theorem accounting_applyOp (s : TradingState) (op : Op) (h : accounting s) :
    accounting (applyOp s op) := by
  cases op with
  | addResting r => exact accounting_addRestingOrder s r h
  | resolveFill oid fs fp => exact accounting_resolveRestingFill s oid fs fp h
  | resolveCancel oid => exact accounting_resolveRestingCancel s oid h
  | applyOrds orders => exact accounting_applyOrders orders s h
  | applyExec orders results => exact accounting_applyExecutionResults s orders results h

/-- C1: for every sequence of public TradingState operations with arbitrary
arguments, starting from new(budget), after every operation the accounting
identity budgetRemaining + totalSpent - totalSellProceeds + restingBuyCost =
initialBudget holds exactly (spec invariant I2, exact over rationals, hence
within any tolerance in floating point). Every reachable state is runOps
budget ops for some operation list, so the identity holds after each
operation of any sequence. -/
theorem accounting_identity_invariant (budget : ℚ) (ops : List Op) :
    accounting (runOps budget ops) := by
  unfold runOps
  have h0 := accounting_new budget
  generalize TradingState.new budget = s0 at h0
  induction ops generalizing s0 with
  | nil => exact h0
  | cons op rest ih => exact ih _ (accounting_applyOp s0 op h0)

/-- C4: the code violates invariant I1 at this input: applying a Buy of
zero shares from a fresh state leaves a HeldPosition with shares = 0 in
the holdings map, because the Buy arm of apply_orders never removes a
position whose shares are not positive. -/
theorem zero_share_buy_leaves_zero_holding :
    (hLookup ((TradingState.new 100).applyOrders [zeroShareBuy]).holdings "A").map
      HeldPosition.shares = some 0 := by
  norm_num [TradingState.applyOrders, TradingState.applyOrder, TradingState.new,
    zeroShareBuy, List.foldl, hUpsert, hLookup]

theorem filterMap_filter_of_none {α β : Type} (p : α → Bool) (f : α → Option β)
    (hf : ∀ a, p a = false → f a = none) :
    ∀ l : List α, (l.filter p).filterMap f = l.filterMap f := by
  intro l
  induction l with
  | nil => rfl
  | cons x xs ih =>
      by_cases hp : p x
      · simp [List.filter_cons, hp, List.filterMap_cons, ih]
      · have hx := hf x (by simpa using hp)
        simp [List.filter_cons, hp, List.filterMap_cons, hx, ih]

theorem synthFilledOrders_filter_inRange (orders : List SimulatedOrder)
    (results : List ExecutionResult) :
    synthFilledOrders orders
        (results.filter (fun r => decide (r.orderIndex < orders.length))) =
      synthFilledOrders orders results := by
  unfold synthFilledOrders
  rw [List.filter_comm]
  exact filterMap_filter_of_none _ _
    (fun r hr => by
      simp at hr
      have hg : orders[r.orderIndex]? = none := List.getElem?_eq_none hr
      simp [synthFilledOrder, hg]) _

theorem foldl_track_filter_inRange (orders : List SimulatedOrder) :
    ∀ (results : List ExecutionResult) (s : TradingState),
      (results.filter (fun r => decide (r.orderIndex < orders.length))).foldl
          (trackRestingStep orders) s =
        results.foldl (trackRestingStep orders) s := by
  intro results
  induction results with
  | nil => intro s; rfl
  | cons r rest ih =>
      intro s
      by_cases hin : r.orderIndex < orders.length
      · simp [List.filter_cons, hin, ih]
      · have hg : orders[r.orderIndex]? = none :=
          List.getElem?_eq_none (le_of_not_lt hin)
        have hid : trackRestingStep orders s r = s := by
          simp [trackRestingStep, hg]
        simp [List.filter_cons, hin, hid, ih]

theorem synthFilledOrders_nil_orders (results : List ExecutionResult) :
    synthFilledOrders [] results = [] := by
  induction results with
  | nil => rfl
  | cons r rest ih =>
      by_cases hst : r.status = ExecutionStatus.Filled ∨ r.status = ExecutionStatus.PartialFill
      · simp only [synthFilledOrders, List.filter_cons] at ih ⊢
        simp [hst, List.filterMap_cons, synthFilledOrder, ih]
      · simp only [synthFilledOrders, List.filter_cons] at ih ⊢
        simp [hst, ih]

theorem foldl_track_nil_orders (results : List ExecutionResult) (s : TradingState) :
    results.foldl (trackRestingStep []) s = s := by
  induction results generalizing s with
  | nil => rfl
  | cons r rest ih =>
      have hid : trackRestingStep [] s r = s := rfl
      simp [hid, ih]

/-- C10: apply_execution_results ignores every result whose order index
does not point into the orders list: the final state equals that of the
same call with the out-of-range results filtered away, and with an empty
orders list the state is left unchanged for every results list. -/
theorem applyExecutionResults_ignores_out_of_range (s : TradingState)
    (orders : List SimulatedOrder) (results : List ExecutionResult) :
    s.applyExecutionResults orders results =
        s.applyExecutionResults orders
          (results.filter (fun r => decide (r.orderIndex < orders.length))) ∧
      s.applyExecutionResults [] results = s := by
  constructor
  · unfold TradingState.applyExecutionResults
    rw [synthFilledOrders_filter_inRange, foldl_track_filter_inRange]
  · unfold TradingState.applyExecutionResults
    rw [synthFilledOrders_nil_orders, foldl_track_nil_orders]
    rfl

theorem foldl_track_mkFilled (orders : List SimulatedOrder) :
    ∀ (i : Nat) (rest : List SimulatedOrder) (s : TradingState),
      (mkFilledResultsFrom i rest).foldl (trackRestingStep orders) s = s := by
  intro i rest
  induction rest generalizing i with
  | nil => intro s; rfl
  | cons o rest2 ih =>
      intro s
      have hstep : trackRestingStep orders s
          { orderIndex := i, status := ExecutionStatus.Filled, orderId := "",
            filledShares := o.shares, filledCostUsd := o.costUsd, errorMsg := none } = s := by
        unfold trackRestingStep
        cases orders.get? i <;> rfl
      simp only [mkFilledResultsFrom, List.foldl_cons, hstep]
      exact ih (i + 1) s

theorem synth_mkFilled (orders : List SimulatedOrder)
    (wf : ∀ o ∈ orders, o.costUsd = o.shares * o.price) :
    ∀ (i : Nat) (rest : List SimulatedOrder), rest = orders.drop i →
      synthFilledOrders orders (mkFilledResultsFrom i rest) = rest := by
  intro i rest
  induction rest generalizing i with
  | nil => intro _; rfl
  | cons o rest2 ih =>
      intro hdrop
      have hget : orders[i]? = some o := by
        have h0 : (orders.drop i)[0]? = some o := by rw [← hdrop]; simp
        rwa [List.getElem?_drop, Nat.add_zero] at h0
      have hmem : o ∈ orders := by
        have hsub := List.drop_subset i orders
        rw [← hdrop] at hsub
        exact hsub (List.mem_cons_self o rest2)
      have hrest2 : rest2 = orders.drop (i + 1) := by
        have h1 : (orders.drop i).tail = orders.drop (i + 1) := by
          rw [List.tail_drop]
        rw [← hdrop] at h1
        simpa using h1
      have hsynth : synthFilledOrder orders
          { orderIndex := i, status := ExecutionStatus.Filled, orderId := "",
            filledShares := o.shares, filledCostUsd := o.costUsd, errorMsg := none } =
          some o := by
        obtain ⟨m, sd, sh, pr, c⟩ := o
        have hc : c = sh * pr := wf _ hmem
        simp only [synthFilledOrder, List.get?_eq_getElem?, hget, Option.map_some']
        by_cases hsh : (0 : ℚ) < sh
        · rw [hc]
          simp only [Option.some.injEq, SimulatedOrder.mk.injEq, hsh, if_true,
            true_and, and_true]
          exact mul_div_cancel_left₀ pr (ne_of_gt hsh)
        · simp [hsh]
      simp only [mkFilledResultsFrom, synthFilledOrders, List.filter_cons]
      simp only [synthFilledOrders] at ih
      simp [List.filterMap_cons, hsynth, ih (i + 1) hrest2]

/-- C6 (amended): for every orders list in which each order satisfies
costUsd = shares * price — as every order the engine emits does —
feeding per-index Filled results through apply_execution_results
produces exactly the state of apply_orders on the same orders. -/
theorem applyExecutionResults_allFilled_eq_applyOrders (s : TradingState)
    (orders : List SimulatedOrder)
    (wf : ∀ o ∈ orders, o.costUsd = o.shares * o.price) :
    s.applyExecutionResults orders (mkFilledResults orders) = s.applyOrders orders := by
  unfold TradingState.applyExecutionResults mkFilledResults
  rw [synth_mkFilled orders wf 0 orders (by simp), foldl_track_mkFilled]

theorem applyExecutionResults_allFilled_eq_applyOrders_witness :
    (∀ o ∈ [c6wOrder], o.costUsd = o.shares * o.price) ∧
      c6wState.applyExecutionResults [c6wOrder] (mkFilledResults [c6wOrder]) =
        c6wState.applyOrders [c6wOrder] :=
  ⟨by intro o ho; simp only [List.mem_singleton] at ho; subst ho; norm_num [c6wOrder],
   applyExecutionResults_allFilled_eq_applyOrders c6wState [c6wOrder]
     (by intro o ho; simp only [List.mem_singleton] at ho; subst ho; norm_num [c6wOrder])⟩

/-- C6 counterexample: as stated over every SimulatedOrder list, the
round trip fails: with a sell whose costUsd differs from shares * price,
apply_execution_results books realized P&L at the synthesized effective
price 10/2 = 5 (giving 8) while apply_orders books it at the stated
price 3 (giving 4), so the final states differ. -/
theorem applyExecutionResults_allFilled_neq_applyOrders_cex :
    (c6cState.applyExecutionResults [c6cOrder] (mkFilledResults [c6cOrder])).realizedPnl = 8 ∧
      (c6cState.applyOrders [c6cOrder]).realizedPnl = 4 := by
  constructor
  · norm_num [TradingState.applyExecutionResults, mkFilledResults, mkFilledResultsFrom,
      synthFilledOrders, synthFilledOrder, trackRestingStep, c6cState, c6cOrder,
      TradingState.applyOrders, TradingState.applyOrder, hLookup, hSet, hRemove,
      List.filter, List.filterMap, List.foldl]
  · norm_num [c6cState, c6cOrder, TradingState.applyOrders, TradingState.applyOrder,
      hLookup, hSet, hRemove, List.foldl]

theorem sumCost_nil : sumCost [] = 0 := rfl

theorem sumCost_cons (o : SimulatedOrder) (l : List SimulatedOrder) :
    sumCost (o :: l) = o.costUsd + sumCost l := by
  simp [sumCost]

theorem sumCost_nonneg (l : List SimulatedOrder) (h : ∀ o ∈ l, 0 ≤ o.costUsd) :
    0 ≤ sumCost l := by
  induction l with
  | nil => simp [sumCost]
  | cons o rest ih =>
      rw [sumCost_cons]
      have h1 := h o (List.mem_cons_self o rest)
      have h2 := ih (fun x hx => h x (List.mem_cons_of_mem o hx))
      linarith

theorem sellForTarget_some {state : TradingState} {t : TargetAllocation}
    {o : SimulatedOrder} (h : sellForTarget state t = some o) :
    t.targetShares - state.effectiveHeldShares t.market.asset < 0 ∧
      o = { market := t.market, side := OrderSide.Sell,
            shares := -(t.targetShares - state.effectiveHeldShares t.market.asset),
            price := t.curPrice,
            costUsd := -(t.targetShares - state.effectiveHeldShares t.market.asset) *
              t.curPrice } := by
  simp only [sellForTarget] at h
  by_cases h1 : 0 < t.targetShares - state.effectiveHeldShares t.market.asset
  · rw [if_pos h1] at h; cases h
  · rw [if_neg h1] at h
    by_cases h2 : t.targetShares - state.effectiveHeldShares t.market.asset < 0
    · rw [if_pos h2] at h
      exact ⟨h2, (Option.some.inj h).symm⟩
    · rw [if_neg h2] at h; cases h

theorem buyForTarget_some {state : TradingState} {t : TargetAllocation}
    {o : SimulatedOrder} (h : buyForTarget state t = some o) :
    0 < t.targetShares - state.effectiveHeldShares t.market.asset ∧
      MIN_ORDER_USD ≤ (t.targetShares - state.effectiveHeldShares t.market.asset) *
        t.curPrice ∧
      o = { market := t.market, side := OrderSide.Buy,
            shares := t.targetShares - state.effectiveHeldShares t.market.asset,
            price := t.curPrice,
            costUsd := (t.targetShares - state.effectiveHeldShares t.market.asset) *
              t.curPrice } := by
  simp only [buyForTarget] at h
  by_cases h1 : 0 < t.targetShares - state.effectiveHeldShares t.market.asset
  · rw [if_pos h1] at h
    by_cases h2 : MIN_ORDER_USD ≤
        (t.targetShares - state.effectiveHeldShares t.market.asset) * t.curPrice
    · rw [if_pos h2] at h
      exact ⟨h1, h2, (Option.some.inj h).symm⟩
    · rw [if_neg h2] at h; cases h
  · rw [if_neg h1] at h; cases h

theorem exitSellFor_some {state : TradingState} {targetAssets : List String}
    {pm : PriceMap} {e : String × HeldPosition} {o : SimulatedOrder}
    (h : exitSellFor state targetAssets pm e = some o) :
    0 < e.2.shares ∧ 0 < state.effectiveHeldShares e.1 ∧
      ∃ p, pmLookup pm e.1 = some p ∧
        o = { market := { conditionId := "", asset := e.1, title := e.2.title,
                          outcome := e.2.outcome, outcomeIndex := 0, eventSlug := "" },
              side := OrderSide.Sell, shares := state.effectiveHeldShares e.1,
              price := p, costUsd := state.effectiveHeldShares e.1 * p } := by
  simp only [exitSellFor] at h
  by_cases h1 : targetAssets.contains e.1
  · rw [if_pos h1] at h; cases h
  · rw [if_neg h1] at h
    by_cases h2 : 0 < e.2.shares
    · rw [if_pos h2] at h
      by_cases h3 : state.effectiveHeldShares e.1 ≤ 0
      · rw [if_pos h3] at h; cases h
      · rw [if_neg h3] at h
        cases hl : pmLookup pm e.1 with
        | none => rw [hl] at h; cases h
        | some p =>
            rw [hl] at h
            exact ⟨h2, lt_of_not_le h3, p, rfl, (Option.some.inj h).symm⟩
    · rw [if_neg h2] at h; cases h

theorem engineSells_side (state : TradingState) (targets : List TargetAllocation)
    (pm : PriceMap) : ∀ o ∈ engineSells state targets pm, o.side = OrderSide.Sell := by
  intro o ho
  rcases List.mem_append.mp ho with hmem | hmem
  · obtain ⟨t, _, hsome⟩ := List.mem_filterMap.mp hmem
    obtain ⟨_, rfl⟩ := sellForTarget_some hsome
    rfl
  · obtain ⟨e, _, hsome⟩ := List.mem_filterMap.mp hmem
    obtain ⟨_, _, p, _, rfl⟩ := exitSellFor_some hsome
    rfl

theorem engineBuys_side (state : TradingState) (targets : List TargetAllocation) :
    ∀ o ∈ engineBuys state targets, o.side = OrderSide.Buy := by
  intro o ho
  obtain ⟨t, _, hsome⟩ := List.mem_filterMap.mp ho
  obtain ⟨_, _, rfl⟩ := buyForTarget_some hsome
  rfl

theorem engineBuys_notional (state : TradingState) (targets : List TargetAllocation) :
    ∀ o ∈ engineBuys state targets, MIN_ORDER_USD ≤ o.shares * o.price := by
  intro o ho
  obtain ⟨t, _, hsome⟩ := List.mem_filterMap.mp ho
  obtain ⟨_, hmin, rfl⟩ := buyForTarget_some hsome
  exact hmin

theorem budgetedBuys_side (bs : List SimulatedOrder) :
    ∀ (a : ℚ), (∀ b ∈ bs, b.side = OrderSide.Buy) →
      ∀ o ∈ budgetedBuys a bs, o.side = OrderSide.Buy := by
  induction bs with
  | nil => intro a _ o ho; simp [budgetedBuys] at ho
  | cons b rest ih =>
      intro a hside o ho
      have hb := hside b (List.mem_cons_self b rest)
      have hrest := fun x hx => hside x (List.mem_cons_of_mem b hx)
      by_cases h1 : a < MIN_ORDER_USD
      · simp [budgetedBuys, h1] at ho
      · by_cases h2 : b.costUsd ≤ a
        · simp only [budgetedBuys, if_neg h1, if_pos h2, List.mem_cons] at ho
          rcases ho with rfl | hmem
          · exact hb
          · exact ih _ hrest o hmem
        · by_cases h3 : MIN_ORDER_USD ≤ a / b.price * b.price
          · simp only [budgetedBuys, if_neg h1, if_neg h2, if_pos h3,
              List.mem_cons] at ho
            rcases ho with rfl | hmem
            · exact hb
            · exact ih _ hrest o hmem
          · simp only [budgetedBuys, if_neg h1, if_neg h2, if_neg h3] at ho
            exact ih _ hrest o ho

theorem budgetedBuys_notional (bs : List SimulatedOrder) :
    ∀ (a : ℚ), (∀ b ∈ bs, MIN_ORDER_USD ≤ b.shares * b.price) →
      ∀ o ∈ budgetedBuys a bs, MIN_ORDER_USD ≤ o.shares * o.price := by
  induction bs with
  | nil => intro a _ o ho; simp [budgetedBuys] at ho
  | cons b rest ih =>
      intro a hnot o ho
      have hb := hnot b (List.mem_cons_self b rest)
      have hrest := fun x hx => hnot x (List.mem_cons_of_mem b hx)
      by_cases h1 : a < MIN_ORDER_USD
      · simp [budgetedBuys, h1] at ho
      · by_cases h2 : b.costUsd ≤ a
        · simp only [budgetedBuys, if_neg h1, if_pos h2, List.mem_cons] at ho
          rcases ho with rfl | hmem
          · exact hb
          · exact ih _ hrest o hmem
        · by_cases h3 : MIN_ORDER_USD ≤ a / b.price * b.price
          · simp only [budgetedBuys, if_neg h1, if_neg h2, if_pos h3,
              List.mem_cons] at ho
            rcases ho with rfl | hmem
            · exact h3
            · exact ih _ hrest o hmem
          · simp only [budgetedBuys, if_neg h1, if_neg h2, if_neg h3] at ho
            exact ih _ hrest o ho

theorem budgetedBuys_sumCost_le (bs : List SimulatedOrder) :
    ∀ (a : ℚ), 0 ≤ a → sumCost (budgetedBuys a bs) ≤ a := by
  induction bs with
  | nil => intro a h0; simp [budgetedBuys, sumCost]; exact h0
  | cons b rest ih =>
      intro a h0
      by_cases h1 : a < MIN_ORDER_USD
      · simp [budgetedBuys, h1, sumCost]; exact h0
      · by_cases h2 : b.costUsd ≤ a
        · simp only [budgetedBuys, if_neg h1, if_pos h2, sumCost_cons]
          have hrec := ih (a - b.costUsd) (by linarith)
          linarith
        · by_cases h3 : MIN_ORDER_USD ≤ a / b.price * b.price
          · by_cases hp0 : b.price = 0
            · rw [hp0] at h3
              simp [MIN_ORDER_USD] at h3
              linarith
            · have hcancel : a / b.price * b.price = a := div_mul_cancel₀ a hp0
              simp only [budgetedBuys, if_neg h1, if_neg h2, if_pos h3, sumCost_cons]
              rw [hcancel]
              have hrec := ih (a - a) (by linarith)
              simp at hrec
              simp
              linarith
          · simp only [budgetedBuys, if_neg h1, if_neg h2, if_neg h3]
            exact ih a h0

theorem budgetedBuys_under_min (a : ℚ) (bs : List SimulatedOrder)
    (h : a < MIN_ORDER_USD) : budgetedBuys a bs = [] := by
  cases bs with
  | nil => rfl
  | cons b rest => simp [budgetedBuys, h]

/-- C3: whenever every target has nonnegative target shares, every Sell
order compute_orders emits is for an asset whose effective held shares
in the input state are nonnegative, and its share count never exceeds
those effective held shares: the engine never emits a Sell that would
drive effective holdings negative. -/
theorem computeOrders_sells_bounded_by_effective
    (targets : List TargetAllocation) (state : TradingState) (br : ℚ) (pm : PriceMap)
    (ht : ∀ t ∈ targets, 0 ≤ t.targetShares) :
    ∀ o ∈ computeOrders targets state br pm, o.side = OrderSide.Sell →
      0 ≤ state.effectiveHeldShares o.market.asset ∧
        o.shares ≤ state.effectiveHeldShares o.market.asset := by
  intro o ho hsell
  simp only [computeOrders] at ho
  rcases List.mem_append.mp ho with hmem | hmem
  · rcases List.mem_append.mp hmem with hms | hme
    · obtain ⟨t, htmem, hsome⟩ := List.mem_filterMap.mp hms
      obtain ⟨hdiff, rfl⟩ := sellForTarget_some hsome
      have h0 := ht t htmem
      constructor
      · show 0 ≤ state.effectiveHeldShares t.market.asset
        linarith
      · show -(t.targetShares - state.effectiveHeldShares t.market.asset) ≤
          state.effectiveHeldShares t.market.asset
        linarith
    · obtain ⟨e, hemem, hsome⟩ := List.mem_filterMap.mp hme
      obtain ⟨hpos, heff, p, hp, rfl⟩ := exitSellFor_some hsome
      exact ⟨le_of_lt heff, le_refl _⟩
  · have hbuy := budgetedBuys_side (engineBuys state targets) _
      (engineBuys_side state targets) o hmem
    rw [hsell] at hbuy
    simp at hbuy

theorem computeOrders_sells_bounded_by_effective_witness :
    (∀ t ∈ ([] : List TargetAllocation), 0 ≤ t.targetShares) ∧
      c3wSell ∈ computeOrders [] c3wState 100 [("B", 3/10)] ∧
      c3wSell.side = OrderSide.Sell ∧
      0 ≤ c3wState.effectiveHeldShares c3wSell.market.asset ∧
        c3wSell.shares ≤ c3wState.effectiveHeldShares c3wSell.market.asset := by
  have hlist : computeOrders [] c3wState 100 [("B", 3/10)] = [c3wSell] := by
    norm_num [computeOrders, engineSells, engineBuys, sellForTarget, buyForTarget,
      exitSellFor, budgetedBuys, sumCost, TradingState.effectiveHeldShares, hLookup,
      pmLookup, List.filterMap_cons, List.filterMap_nil, c3wState, c7dustState, c3wSell, mkMarket, MIN_ORDER_USD]
  have hmem : c3wSell ∈ computeOrders [] c3wState 100 [("B", 3/10)] := by
    rw [hlist]; exact List.mem_singleton_self _
  have hcon := computeOrders_sells_bounded_by_effective [] c3wState 100 [("B", 3/10)]
    (by intro t htm; cases htm) c3wSell hmem rfl
  exact ⟨fun t htm => absurd htm (List.not_mem_nil t), hmem, rfl, hcon.1, hcon.2⟩

/-- C7: every Buy order compute_orders emits clears the 1-dollar minimum
notional (shares * price at least MIN_ORDER_USD); a candidate buy of
0.99-dollar notional is dropped, one of exactly 1.00 dollar is retained
when the budget covers it, and sells have no minimum: a zero-proceeds
exit sell is still emitted. -/
theorem computeOrders_min_notional_policy :
    (∀ (targets : List TargetAllocation) (state : TradingState) (br : ℚ) (pm : PriceMap),
        ∀ o ∈ computeOrders targets state br pm, o.side = OrderSide.Buy →
          MIN_ORDER_USD ≤ o.shares * o.price) ∧
      computeOrders [c7target99] (TradingState.new 1000) 1000 [] = [] ∧
      computeOrders [c7target100] (TradingState.new 1000) 1000 [] = [c7buy100] ∧
      computeOrders [] c7dustState 100 [("B", 0)] = [c7dustSell] := by
  refine ⟨?_, ?_, ?_, ?_⟩
  · intro targets state br pm o ho hbuy
    simp only [computeOrders] at ho
    rcases List.mem_append.mp ho with hmem | hmem
    · have hside := engineSells_side state targets pm o hmem
      rw [hbuy] at hside
      simp at hside
    · exact budgetedBuys_notional (engineBuys state targets) _
        (engineBuys_notional state targets) o hmem
  · norm_num [computeOrders, engineSells, engineBuys, sellForTarget, buyForTarget,
      exitSellFor, budgetedBuys, sumCost, TradingState.effectiveHeldShares, hLookup,
      pmLookup, List.filterMap_cons, List.filterMap_nil, TradingState.new, c7target99, mkMarket, MIN_ORDER_USD]
  · norm_num [computeOrders, engineSells, engineBuys, sellForTarget, buyForTarget,
      exitSellFor, budgetedBuys, sumCost, TradingState.effectiveHeldShares, hLookup,
      pmLookup, List.filterMap_cons, List.filterMap_nil, TradingState.new, c7target100, c7buy100, mkMarket, MIN_ORDER_USD]
  · norm_num [computeOrders, engineSells, engineBuys, sellForTarget, buyForTarget,
      exitSellFor, budgetedBuys, sumCost, TradingState.effectiveHeldShares, hLookup,
      pmLookup, List.filterMap_cons, List.filterMap_nil, c7dustState, c7dustSell, mkMarket, MIN_ORDER_USD]

theorem computeOrders_min_notional_policy_witness :
    c7buy100 ∈ computeOrders [c7target100] (TradingState.new 1000) 1000 [] ∧
      c7buy100.side = OrderSide.Buy ∧
      MIN_ORDER_USD ≤ c7buy100.shares * c7buy100.price := by
  have hlist : computeOrders [c7target100] (TradingState.new 1000) 1000 [] = [c7buy100] :=
    computeOrders_min_notional_policy.2.2.1
  have hmem : c7buy100 ∈ computeOrders [c7target100] (TradingState.new 1000) 1000 [] := by
    rw [hlist]; exact List.mem_singleton_self _
  exact ⟨hmem, rfl,
    computeOrders_min_notional_policy.1 [c7target100] (TradingState.new 1000) 1000 []
      c7buy100 hmem rfl⟩

/-- C8: in the compute_orders output all Sells precede all Buys: there
is no index pair i < j with a Buy at i and a Sell at j. -/
theorem computeOrders_sells_precede_buys
    (targets : List TargetAllocation) (state : TradingState) (br : ℚ) (pm : PriceMap)
    (i j : Nat) (oi oj : SimulatedOrder) (hij : i < j)
    (hi : (computeOrders targets state br pm)[i]? = some oi)
    (hj : (computeOrders targets state br pm)[j]? = some oj)
    (hbuy : oi.side = OrderSide.Buy) : oj.side ≠ OrderSide.Sell := by
  have hL : computeOrders targets state br pm =
      engineSells state targets pm ++
        budgetedBuys (br + sumCost (engineSells state targets pm))
          (engineBuys state targets) := rfl
  rw [hL] at hi hj
  by_cases hiL : i < (engineSells state targets pm).length
  · rw [List.getElem?_append, if_pos hiL] at hi
    have hside := engineSells_side state targets pm oi (List.getElem?_mem hi)
    rw [hbuy] at hside
    simp at hside
  · have hjge : (engineSells state targets pm).length ≤ j :=
      le_trans (le_of_not_lt hiL) (le_of_lt hij)
    rw [List.getElem?_append, if_neg (not_lt.mpr hjge)] at hj
    have hside := budgetedBuys_side (engineBuys state targets) _
      (engineBuys_side state targets) oj (List.getElem?_mem hj)
    rw [hside]
    simp

theorem computeOrders_sells_precede_buys_witness :
    (0 : Nat) < 1 ∧
      (computeOrders [c8target "A", c8target "B"] (TradingState.new 10) 10 [])[0]? =
        some (c8buy "A") ∧
      (computeOrders [c8target "A", c8target "B"] (TradingState.new 10) 10 [])[1]? =
        some (c8buy "B") ∧
      (c8buy "A").side = OrderSide.Buy ∧
      (c8buy "B").side ≠ OrderSide.Sell := by
  have hlist : computeOrders [c8target "A", c8target "B"] (TradingState.new 10) 10 [] =
      [c8buy "A", c8buy "B"] := by
    norm_num [computeOrders, engineSells, engineBuys, sellForTarget, buyForTarget,
      exitSellFor, budgetedBuys, sumCost, TradingState.effectiveHeldShares, hLookup,
      pmLookup, List.filterMap_cons, List.filterMap_nil, TradingState.new, c8target, c8buy, mkMarket, MIN_ORDER_USD]
  refine ⟨Nat.zero_lt_one, by rw [hlist]; rfl, by rw [hlist]; rfl, rfl, ?_⟩
  exact computeOrders_sells_precede_buys [c8target "A", c8target "B"]
    (TradingState.new 10) 10 [] 0 1 (c8buy "A") (c8buy "B") Nat.zero_lt_one
    (by rw [hlist]; rfl) (by rw [hlist]; rfl) rfl

/-- C2 (amended): with nonnegative prices — every target curPrice and
every price-map price at least 0, as market prices always are — and a
nonnegative remaining budget, the cumulative cost of the Buy orders in
the compute_orders output never exceeds budgetRemaining plus the total
proceeds of the Sell orders in that output (spec invariant I6); in the
buy-budgeting loop a buy whose cost exceeds the running available
a ≥ MIN_NOTIONAL is downsized to exactly a (shares a divided by price)
and every later buy is dropped, and once the available budget is below
MIN_NOTIONAL every remaining buy is dropped. -/
theorem computeOrders_budget_cap :
    (∀ (targets : List TargetAllocation) (state : TradingState) (br : ℚ) (pm : PriceMap),
        0 ≤ br →
        (∀ t ∈ targets, 0 ≤ t.curPrice) →
        (∀ (a : String) (p : ℚ), pmLookup pm a = some p → 0 ≤ p) →
        sumCost ((computeOrders targets state br pm).filter
            (fun o => decide (o.side = OrderSide.Buy))) ≤
          br + sumCost ((computeOrders targets state br pm).filter
            (fun o => decide (o.side = OrderSide.Sell)))) ∧
      (∀ (a : ℚ) (b : SimulatedOrder) (rest : List SimulatedOrder),
          MIN_ORDER_USD ≤ a → a < b.costUsd → 0 < b.price →
          budgetedBuys a (b :: rest) =
            [{ b with shares := a / b.price, costUsd := a }]) ∧
      (∀ (a : ℚ) (bs : List SimulatedOrder), a < MIN_ORDER_USD →
        budgetedBuys a bs = []) := by
  refine ⟨?_, ?_, budgetedBuys_under_min⟩
  · intro targets state br pm hbr hpt hpm
    have hL : computeOrders targets state br pm =
        engineSells state targets pm ++
          budgetedBuys (br + sumCost (engineSells state targets pm))
            (engineBuys state targets) := rfl
    have hsellside := engineSells_side state targets pm
    have hbbside := budgetedBuys_side (engineBuys state targets)
      (br + sumCost (engineSells state targets pm)) (engineBuys_side state targets)
    have hfilterBuy : (computeOrders targets state br pm).filter
        (fun o => decide (o.side = OrderSide.Buy)) =
        budgetedBuys (br + sumCost (engineSells state targets pm))
          (engineBuys state targets) := by
      rw [hL, List.filter_append]
      have h1 : (engineSells state targets pm).filter
          (fun o => decide (o.side = OrderSide.Buy)) = [] :=
        List.filter_eq_nil.mpr (fun o ho => by simp [hsellside o ho])
      have h2 : (budgetedBuys (br + sumCost (engineSells state targets pm))
            (engineBuys state targets)).filter
          (fun o => decide (o.side = OrderSide.Buy)) =
          budgetedBuys (br + sumCost (engineSells state targets pm))
            (engineBuys state targets) :=
        List.filter_eq_self.mpr (fun o ho => by simp [hbbside o ho])
      rw [h1, h2, List.nil_append]
    have hfilterSell : (computeOrders targets state br pm).filter
        (fun o => decide (o.side = OrderSide.Sell)) =
        engineSells state targets pm := by
      rw [hL, List.filter_append]
      have h1 : (engineSells state targets pm).filter
          (fun o => decide (o.side = OrderSide.Sell)) =
          engineSells state targets pm :=
        List.filter_eq_self.mpr (fun o ho => by simp [hsellside o ho])
      have h2 : (budgetedBuys (br + sumCost (engineSells state targets pm))
            (engineBuys state targets)).filter
          (fun o => decide (o.side = OrderSide.Sell)) = [] :=
        List.filter_eq_nil.mpr (fun o ho => by simp [hbbside o ho])
      rw [h1, h2, List.append_nil]
    have hsellnn : ∀ o ∈ engineSells state targets pm, 0 ≤ o.costUsd := by
      intro o ho
      rcases List.mem_append.mp ho with hms | hme
      · obtain ⟨t, htmem, hsome⟩ := List.mem_filterMap.mp hms
        obtain ⟨hdiff, rfl⟩ := sellForTarget_some hsome
        have hpnn := hpt t htmem
        have hshares : (0:ℚ) ≤
            -(t.targetShares - state.effectiveHeldShares t.market.asset) := by
          linarith
        exact mul_nonneg hshares hpnn
      · obtain ⟨e, hemem, hsome⟩ := List.mem_filterMap.mp hme
        obtain ⟨hpos, heff, p, hp, rfl⟩ := exitSellFor_some hsome
        exact mul_nonneg (le_of_lt heff) (hpm e.1 p hp)
    have h0 : 0 ≤ br + sumCost (engineSells state targets pm) := by
      have := sumCost_nonneg (engineSells state targets pm) hsellnn
      linarith
    have hble := budgetedBuys_sumCost_le (engineBuys state targets) _ h0
    rw [hfilterBuy, hfilterSell]
    linarith
  · intro a b rest h1 h2 hp
    have hne : b.price ≠ 0 := ne_of_gt hp
    have hcancel : a / b.price * b.price = a := div_mul_cancel₀ a hne
    show (if a < MIN_ORDER_USD then []
      else if b.costUsd ≤ a then b :: budgetedBuys (a - b.costUsd) rest
      else if MIN_ORDER_USD ≤ a / b.price * b.price then
        { b with shares := a / b.price, costUsd := a / b.price * b.price } ::
          budgetedBuys (a - a / b.price * b.price) rest
      else budgetedBuys a rest) = [{ b with shares := a / b.price, costUsd := a }]
    rw [if_neg (not_lt.mpr h1), if_neg (not_le.mpr h2), hcancel, if_pos h1, sub_self]
    rw [budgetedBuys_under_min 0 rest (by norm_num [MIN_ORDER_USD])]

theorem computeOrders_budget_cap_witness :
    (0:ℚ) ≤ 10 ∧ (∀ t ∈ [c8target "A"], 0 ≤ t.curPrice) ∧
      (∀ (a : String) (p : ℚ), pmLookup [] a = some p → 0 ≤ p) ∧
      sumCost ((computeOrders [c8target "A"] (TradingState.new 10) 10 []).filter
          (fun o => decide (o.side = OrderSide.Buy))) ≤
        10 + sumCost ((computeOrders [c8target "A"] (TradingState.new 10) 10 []).filter
          (fun o => decide (o.side = OrderSide.Sell))) := by
  refine ⟨by norm_num, ?_, ?_, ?_⟩
  · intro t ht
    simp only [List.mem_singleton] at ht
    subst ht
    norm_num [c8target]
  · intro a p hp
    simp [pmLookup] at hp
  · exact computeOrders_budget_cap.1 [c8target "A"] (TradingState.new 10) 10 []
      (by norm_num)
      (fun t ht => by
        simp only [List.mem_singleton] at ht
        subst ht
        norm_num [c8target])
      (fun a p hp => by simp [pmLookup] at hp)

/-- C2 counterexample: with a target of zero target shares but negative
current price -1 (the claim quantifies over every targets list and price
map), the engine emits a sell with negative proceeds -5; the output has
no buys, yet cumulative buy cost 0 exceeds budgetRemaining 0 plus sell
proceeds -5, so invariant I6 as claimed for arbitrary inputs is false. -/
theorem side_sell_ne_buy : (OrderSide.Sell = OrderSide.Buy) = False := by simp

theorem side_buy_ne_sell : (OrderSide.Buy = OrderSide.Sell) = False := by simp

theorem computeOrders_budget_cap_cex :
    ¬ (sumCost ((computeOrders [c2negTarget] c2negState 0 []).filter
          (fun o => decide (o.side = OrderSide.Buy))) ≤
        0 + sumCost ((computeOrders [c2negTarget] c2negState 0 []).filter
          (fun o => decide (o.side = OrderSide.Sell)))) := by
  norm_num [computeOrders, engineSells, engineBuys, sellForTarget, buyForTarget,
    exitSellFor, budgetedBuys, sumCost, TradingState.effectiveHeldShares, hLookup,
    pmLookup, List.filterMap_cons, List.filterMap_nil, c2negState, c2negTarget,
    mkMarket, MIN_ORDER_USD, List.filter_cons, List.filter_nil, side_sell_ne_buy,
    side_buy_ne_sell]

theorem strAB : (("A" : String) = "B") = False := by simp

theorem strBA : (("B" : String) = "A") = False := by simp

/-- C5 counterexample: at the claimed scenario the rebalancing cycle
emits two orders, not exactly one — besides the Sell of A it buys
218.75 more shares of B, because compute_target_state targets
min(1 * 1000 * 0.5, 0.3 * 1000) / 0.8 = 375 shares of B, not the held
156.25 — and the final budgetRemaining is 737.50, not 912.50. -/
theorem rebalance_target_exit_cex :
    (rebalanceDryRun c5state c5positions c5oracle (1/2) (3/10)).1.length = 2 ∧
      (rebalanceDryRun c5state c5positions c5oracle (1/2) (3/10)).2.budgetRemaining =
        1475/2 := by
  constructor
  · norm_num [rebalanceDryRun, buildPriceMap, buildExitPriceMap, computeWeights,
      computeTargetState, extractMarket, TradingState.effectiveCapital,
      TradingState.effectiveHeldShares, computeOrders, engineSells, engineBuys,
      sellForTarget, buyForTarget, exitSellFor, budgetedBuys, sumCost, pmLookup,
      pmInsert, hLookup, hUpsert, hSet, hRemove, TradingState.applyOrders,
      TradingState.applyOrder, List.filterMap_cons, List.filterMap_nil,
      List.filter_cons, List.filter_nil, c5state, c5positions, c5oracle, mkMarket,
      MIN_ORDER_USD, strAB, strBA, min_def]
  · norm_num [rebalanceDryRun, buildPriceMap, buildExitPriceMap, computeWeights,
      computeTargetState, extractMarket, TradingState.effectiveCapital,
      TradingState.effectiveHeldShares, computeOrders, engineSells, engineBuys,
      sellForTarget, buyForTarget, exitSellFor, budgetedBuys, sumCost, pmLookup,
      pmInsert, hLookup, hUpsert, hSet, hRemove, TradingState.applyOrders,
      TradingState.applyOrder, List.filterMap_cons, List.filterMap_nil,
      List.filter_cons, List.filter_nil, c5state, c5positions, c5oracle, mkMarket,
      MIN_ORDER_USD, strAB, strBA, min_def]

/-- C5 (amended): in dry-run with budget 1000, copyPct 0.5 and
maxTradePct 0.3, starting from scenario 1's end state with the target
now holding only B and the oracle quoting A at 0.45, the cycle produces
exactly the orders Sell 750 A at 0.45 (proceeds 337.50) and Buy 218.75 B
at 0.80 (cost 175), and applying them yields holdings B = 375 shares,
realizedPnl 37.50 and budgetRemaining 737.50. -/
theorem rebalance_target_exit_actual :
    rebalanceDryRun c5state c5positions c5oracle (1/2) (3/10) =
      ([c5sellA, c5buyB], c5endState) := by
  norm_num [rebalanceDryRun, buildPriceMap, buildExitPriceMap, computeWeights,
    computeTargetState, extractMarket, TradingState.effectiveCapital,
    TradingState.effectiveHeldShares, computeOrders, engineSells, engineBuys,
    sellForTarget, buyForTarget, exitSellFor, budgetedBuys, sumCost, pmLookup,
    pmInsert, hLookup, hUpsert, hSet, hRemove, TradingState.applyOrders,
    TradingState.applyOrder, List.filterMap_cons, List.filterMap_nil,
    List.filter_cons, List.filter_nil, c5state, c5positions, c5oracle, c5sellA,
    c5buyB, c5endState, mkMarket, MIN_ORDER_USD, strAB, strBA, min_def, Prod.ext_iff]

/-- C9 counterexample: a deferred status query returning the unexpected
state Delayed is classified as optimistic Filled at the intended
truncated size — but the result's errorMsg is none: executor.rs attaches
an error message only when the status query itself errors, so the claim
that the error is attached in both cases is false. -/
theorem classify_delayed_no_errorMsg :
    (classifyStatusCheck 0 c9order 10 "oid"
        (Except.ok { status := OrderStatusType.Delayed, sizeMatched := 0,
                     originalSize := 10, price := 1/2 })).errorMsg = none ∧
      (classifyStatusCheck 0 c9order 10 "oid"
        (Except.ok { status := OrderStatusType.Delayed, sizeMatched := 0,
                     originalSize := 10, price := 1/2 })).status =
        ExecutionStatus.Filled := by
  exact ⟨rfl, rfl⟩

/-- C9 (amended): after a successful post whose response was not already
Matched, if the deferred status query returns a state other than
Matched, Live, Canceled or Unmatched (such as Delayed), or if the query
itself errors, the order is classified as Filled at the intended
truncated size, with cost sharesTrunc * order.price; the error is
attached to errorMsg exactly when the query itself errored — an
unexpected state yields errorMsg none (it is only logged). -/
theorem classify_optimistic_filled (idx : Nat) (order : SimulatedOrder)
    (sharesTrunc : ℚ) (oid : String) (resp : Except String OrderStatusInfo)
    (h : ∀ st, resp = Except.ok st → st.status = OrderStatusType.Delayed) :
    (classifyStatusCheck idx order sharesTrunc oid resp).status =
        ExecutionStatus.Filled ∧
      (classifyStatusCheck idx order sharesTrunc oid resp).filledShares = sharesTrunc ∧
      (classifyStatusCheck idx order sharesTrunc oid resp).filledCostUsd =
        sharesTrunc * order.price ∧
      ((∃ e, resp = Except.error e) ↔
        ∃ m, (classifyStatusCheck idx order sharesTrunc oid resp).errorMsg = some m) := by
  cases resp with
  | ok st =>
      rcases st with ⟨st0, sm, os, p⟩
      have hst : st0 = OrderStatusType.Delayed := h _ rfl
      subst hst
      refine ⟨rfl, rfl, rfl, ?_⟩
      constructor
      · rintro ⟨e, he⟩
        cases he
      · rintro ⟨m, hm⟩
        exact Option.noConfusion hm
  | error e =>
      refine ⟨rfl, rfl, rfl, ?_⟩
      constructor
      · intro _
        exact ⟨"status check failed: " ++ e, rfl⟩
      · intro _
        exact ⟨e, rfl⟩

theorem classify_optimistic_filled_witness :
    (∀ st, (Except.error "boom" : Except String OrderStatusInfo) = Except.ok st →
        st.status = OrderStatusType.Delayed) ∧
      ((classifyStatusCheck 0 c9order 10 "oid"
          (Except.error "boom")).status = ExecutionStatus.Filled ∧
        (classifyStatusCheck 0 c9order 10 "oid"
          (Except.error "boom")).filledShares = 10 ∧
        (classifyStatusCheck 0 c9order 10 "oid"
          (Except.error "boom")).filledCostUsd = 10 * c9order.price ∧
        ((∃ e, (Except.error "boom" : Except String OrderStatusInfo) =
            Except.error e) ↔
          ∃ m, (classifyStatusCheck 0 c9order 10 "oid"
            (Except.error "boom")).errorMsg = some m)) :=
  ⟨(fun _ h => nomatch h),
   classify_optimistic_filled 0 c9order 10 "oid" (Except.error "boom")
     (fun _ h => nomatch h)⟩

